import Mathlib

/-!
# Verification of the storefront region middleware

Shallow embedding of `apps/storefront/src/middleware.ts`, the region-resolution
and redirect decision procedure:

* `getRegionMap`  — the directory-cache refresh logic, modelled as a pure
  function of the configured backend URL, the current cache state, the current
  time and the (already awaited) fetch outcome;
* `getCountryCode` — the country-code resolution precedence;
* `middleware`     — the decision procedure, modelled as a pure function of the
  request, the directory snapshot returned by `getRegionMap`, the value of the
  `NEXT_PUBLIC_DEFAULT_REGION` environment variable, and the fresh UUID that
  `crypto.randomUUID()` would produce.

JavaScript string primitives that the source uses (`String.prototype.split`
with separator `"/"`, `toLowerCase`, `includes`, truthiness of strings and of
optional values) are embedded character-by-character below.
-/

namespace Storefront

/-- JS `str.split(sep)` for a one-character separator, on the character list:
`"".split("/") = [""]`, `"/".split("/") = ["", ""]`, `"a//b".split("/") =
["a", "", "b"]`. -/
def splitChar (sep : Char) : List Char → List (List Char)
  | [] => [[]]
  | c :: cs =>
    if c = sep then [] :: splitChar sep cs
    else
      match splitChar sep cs with
      | [] => [[c]]
      | t :: ts => (c :: t) :: ts

/-- JS `pathname.split("/")`. -/
def jsSplit (s : String) : List String :=
  (splitChar '/' s.data).map (fun l => String.mk l)

/-- JS `s.toLowerCase()` (ASCII range, which is all the source compares). -/
def toLowerCase (s : String) : String :=
  String.mk (s.data.map Char.toLower)

/-- JS `s.includes(c)` for a one-character needle. -/
def jsIncludes (s : String) (c : Char) : Bool :=
  s.data.contains c

/-- JS truthiness of a possibly-undefined string: `undefined` and `""` are
falsy, everything else truthy. -/
def jsStrTruthy : Option String → Bool
  | none => false
  | some s => !(s == "")

/-- Embeds `HttpTypes.StoreCountry`: only the `iso_2` field is consumed. -/
structure StoreCountry where
  iso_2 : Option String
deriving DecidableEq

/-- Embeds `HttpTypes.StoreRegion`: only `countries` is consumed by the middleware. -/
structure StoreRegion where
  id : String
  countries : Option (List StoreCountry)
deriving DecidableEq

/-- The directory snapshot: a JS `Map<string, StoreRegion>`, i.e. an
insertion-ordered association list with unique keys maintained by `mapSet`. -/
abbrev RegionMap := List (String × StoreRegion)

/-- JS `map.has(k)`. -/
def mapHas (m : RegionMap) (k : String) : Bool :=
  m.any (fun p => p.1 == k)

/-- JS `map.keys().next().value`: the first key in insertion order, or
`undefined` on an empty map. -/
def firstKey (m : RegionMap) : Option String :=
  m.head?.map (fun p => p.1)

/-- JS `map.set(k, v)`: overwrite in place if the key exists, else append. -/
def mapSet (m : RegionMap) (k : String) (v : StoreRegion) : RegionMap :=
  if m.any (fun p => p.1 == k) then
    m.map (fun p => if p.1 == k then (k, v) else p)
  else
    m ++ [(k, v)]

/-- Embeds `const DEFAULT_REGION = process.env.NEXT_PUBLIC_DEFAULT_REGION || "dk"`. -/
def DEFAULT_REGION (env : Option String) : String :=
  match env with
  | some s => if s == "" then "dk" else s
  | none => "dk"

/-- The request data the middleware consumes: URL parts, the
`_medusa_cache_id` cookie (value, when the cookie is present), and the two
geolocation hints (`request.cf?.country` and the `x-vercel-ip-country`
header). -/
structure Request where
  pathname : String
  search : String
  origin : String
  cookieCacheId : Option String
  cfCountry : Option String
  vercelCountry : Option String
deriving DecidableEq

/-- One guard of the resolution chain: JS `code && regionMap.has(code)` where
`code` is a possibly-undefined, already lowercased string. -/
def condCheck (m : RegionMap) : Option String → Bool
  | none => false
  | some s => !(s == "") && mapHas m s

/-- Embeds `getCountryCode` (middleware.ts): resolution of the country code from the
first path segment, the Cloudflare hint, the Vercel hint, the configured
default region and finally the first directory entry. -/
def getCountryCode (req : Request) (regionMap : RegionMap) (env : Option String) :
    Option String :=
  let urlCountryCode := ((jsSplit req.pathname).get? 1).map toLowerCase
  let cloudflareCountryCode := req.cfCountry.map toLowerCase
  let vercelCountryCode := req.vercelCountry.map toLowerCase
  if condCheck regionMap urlCountryCode then urlCountryCode
  else if condCheck regionMap cloudflareCountryCode then cloudflareCountryCode
  else if condCheck regionMap vercelCountryCode then vercelCountryCode
  else if mapHas regionMap (DEFAULT_REGION env) then some (DEFAULT_REGION env)
  else if jsStrTruthy (firstKey regionMap) then firstKey regionMap
  else none

/-- The observable decision kind of a middleware response: pass-through
(`NextResponse.next()`) or a redirect with its target URL and status. -/
inductive ResponseKind where
  | next
  | redirect (url : String) (status : Nat)
deriving DecidableEq

/-- A `Set-Cookie` recorded on the response via `response.cookies.set`. -/
structure SetCookie where
  name : String
  value : String
  maxAge : Nat
deriving DecidableEq

/-- A middleware response: its decision kind plus the cookie it sets, if
any. -/
structure Response where
  kind : ResponseKind
  setCookie : Option SetCookie
deriving DecidableEq

/-- Embeds `NextResponse.next()`. -/
def nextResponse : Response := ⟨ResponseKind.next, none⟩

/-- Embeds `NextResponse.redirect(url, status)`. -/
def redirectResponse (url : String) (status : Nat) : Response :=
  ⟨ResponseKind.redirect url status, none⟩

/-- Embeds `response.cookies.set("_medusa_cache_id", v, { maxAge: 60 * 60 * 24 })`. -/
def withCacheIdCookie (r : Response) (v : String) : Response :=
  { r with setCookie := some ⟨"_medusa_cache_id", v, 60 * 60 * 24⟩ }

/-- Embeds `middleware` (middleware.ts, lines 248–337): the decision procedure, as a
function of the request, the directory snapshot `regionMap` obtained from
`getRegionMap`, the `NEXT_PUBLIC_DEFAULT_REGION` environment value, and the
UUID that `crypto.randomUUID()` would return.  The trailing
`if/if` on `!urlHasCountryCode && countryCode` and
`!urlHasCountryCode && !countryCode` is rendered as a match on `countryCode`;
each arm keeps the source's final `return response` (a 307 redirect of the
request to its own URL) as its else branch. -/
def middleware (req : Request) (regionMap : RegionMap) (env : Option String)
    (freshId : String) : Response :=
  let redirectUrl := req.origin ++ req.pathname ++ req.search
  let response := redirectResponse redirectUrl 307
  let cacheIdCookie := req.cookieCacheId
  let cacheId := match cacheIdCookie with
    | some v => if v == "" then freshId else v
    | none => freshId
  let countryCode := getCountryCode req regionMap env
  let redirectPath := if req.pathname == "/" then "" else req.pathname
  let queryString := req.search
  let urlHasCountryCode :=
    match countryCode with
    | some c => ((jsSplit req.pathname).get? 1).map toLowerCase == some (toLowerCase c)
    | none => false
  let fallbackCountry := if DEFAULT_REGION env == "" then "dk" else DEFAULT_REGION env
  if regionMap.isEmpty then
    let pathSegments := (jsSplit req.pathname).filter (fun s => !(s == ""))
    let urlAlreadyHasFallback :=
      (pathSegments.get? 0).map toLowerCase == some (toLowerCase fallbackCountry)
    if urlAlreadyHasFallback then
      nextResponse
    else
      redirectResponse (req.origin ++ "/" ++ fallbackCountry ++ redirectPath ++ queryString) 307
  else if urlHasCountryCode && cacheIdCookie.isSome then
    nextResponse
  else if urlHasCountryCode && !cacheIdCookie.isSome then
    withCacheIdCookie nextResponse cacheId
  else if jsIncludes req.pathname '.' then
    nextResponse
  else
    match countryCode with
    | some c =>
      if !urlHasCountryCode then
        redirectResponse (req.origin ++ "/" ++ c ++ redirectPath ++ queryString) 307
      else
        response
    | none =>
      if !urlHasCountryCode then
        let pathSegments := (jsSplit req.pathname).filter (fun s => !(s == ""))
        if (pathSegments.get? 0).map toLowerCase == some (toLowerCase fallbackCountry) then
          if !cacheIdCookie.isSome then withCacheIdCookie nextResponse cacheId
          else nextResponse
        else
          redirectResponse (req.origin ++ "/" ++ fallbackCountry ++ redirectPath ++ queryString) 307
      else
        response

/-- The mutable module cache `regionMapCache`. -/
structure CacheState where
  regionMap : RegionMap
  regionMapUpdated : Nat
deriving DecidableEq

/-- The outcome of the (awaited) `fetch` to `GET {backend}/store/regions`:
`ok`/`status` from the HTTP response, `regions` from the parsed JSON body
(`none` models a body without a `regions` array). -/
structure FetchResponse where
  ok : Bool
  status : Nat
  regions : Option (List StoreRegion)
deriving DecidableEq

/-- The two `throw new Error(...)` sites of `getRegionMap`. -/
inductive RegionMapError where
  | missingBackendUrl
  | backendStatus (status : Nat)
deriving DecidableEq

/-- The refresh guard of `getRegionMap`:
`!regionMap.keys().next().value || regionMapUpdated < Date.now() - 3600 * 1000`
(with the truncating `Nat` subtraction agreeing with the JS comparison, since
a negative right-hand side makes the JS comparison false as well). -/
def refreshNeeded (st : CacheState) (now : Nat) : Bool :=
  !(jsStrTruthy (firstKey st.regionMap)) || decide (st.regionMapUpdated < now - 3600 * 1000)

/-- The `(iso_2 ?? "", region)` pairs in the order the nested `forEach` loops
visit them. -/
def regionPairs (regions : List StoreRegion) : List (String × StoreRegion) :=
  regions.flatMap (fun r => (r.countries.getD []).map (fun c => (c.iso_2.getD "", r)))

/-- Embeds `getRegionMap` (middleware.ts, lines 157–206), as a pure function of the
`NEXT_PUBLIC_MEDUSA_BACKEND_URL` value, the current cache state, the current
time (ms) and the fetch outcome.  Returns the map handed to the caller
together with the cache state left behind.  Note the refresh writes through
`regionMapCache.regionMap.set(...)` into the existing map, and the
zero-regions case returns a fresh empty map without touching the cache. -/
def getRegionMap (backendUrl : Option String) (st : CacheState) (now : Nat)
    (fetched : FetchResponse) : Except RegionMapError (RegionMap × CacheState) :=
  if !(jsStrTruthy backendUrl) then
    Except.error RegionMapError.missingBackendUrl
  else if refreshNeeded st now then
    if !fetched.ok then
      Except.error (RegionMapError.backendStatus fetched.status)
    else
      let regions := fetched.regions.getD []
      if regions.isEmpty then
        Except.ok (([] : RegionMap), st)
      else
        let newMap := (regionPairs regions).foldl (fun m p => mapSet m p.1 p.2) st.regionMap
        Except.ok (newMap, ⟨newMap, now⟩)
  else
    Except.ok (st.regionMap, st)

/-- Boolean error discriminator for `Except`. -/
def isError {ε α : Type} : Except ε α → Bool
  | Except.error _ => true
  | Except.ok _ => false

/-- The map the nested `forEach` loops leave in `regionMapCache.regionMap`
after a refresh: each `(iso_2 ?? "", region)` pair is `set` into the map that
was already there. -/
def refreshedRegionMap (st : CacheState) (regions : List StoreRegion) : RegionMap :=
  (regionPairs regions).foldl (fun m p => mapSet m p.1 p.2) st.regionMap

/-- The country code a redirect would be prefixed with: the resolved code when
there is one, the configured default region otherwise. -/
def resolvedOrFallback (req : Request) (regionMap : RegionMap) (env : Option String) :
    String :=
  (getCountryCode req regionMap env).getD (DEFAULT_REGION env)

/-!
## Specification-side definition for the resolution precedence

`specCandidates`/`specCountryCode` follow the spec's words for claim C2
(country-code resolution precedence, first match wins), amended at the two
places the source deviates: a candidate participates only when it is a
non-empty string (JS truthiness), and the final directory-entry rule also
requires its key to be a non-empty string. -/

/-- The ordered candidate rules of the resolution precedence. -/
def specCandidates (req : Request) (m : RegionMap) (env : Option String) :
    List (Option String) :=
  [ (((jsSplit req.pathname).get? 1).map toLowerCase).bind
      (fun s => if s ≠ "" ∧ mapHas m s = true then some s else none),
    (req.cfCountry.map toLowerCase).bind
      (fun s => if s ≠ "" ∧ mapHas m s = true then some s else none),
    (req.vercelCountry.map toLowerCase).bind
      (fun s => if s ≠ "" ∧ mapHas m s = true then some s else none),
    if mapHas m (DEFAULT_REGION env) = true then some (DEFAULT_REGION env) else none,
    (firstKey m).bind (fun k => if k ≠ "" then some k else none) ]

/-- First-match-wins over the candidate rules. -/
def specCountryCode (req : Request) (m : RegionMap) (env : Option String) :
    Option String :=
  ((specCandidates req m env).filterMap id).head?

/-!
## Helper lemmas
-/

theorem toNat_charOfNat (n : Nat) (h : n.isValidChar) : (Char.ofNat n).toNat = n := by
  simp only [Char.ofNat, dif_pos h, Char.ofNatAux, Char.toNat]
  have hlt : n < 2 ^ 32 := by
    rcases h with h | ⟨h1, h2⟩
    · omega
    · omega
  simp [UInt32.toNat, BitVec.toNat_ofNat, Nat.mod_eq_of_lt hlt]

theorem charToLower_idem (c : Char) : c.toLower.toLower = c.toLower := by
  by_cases h : c.toNat ≥ 65 ∧ c.toNat ≤ 90
  · have hv : (c.toNat + 32).isValidChar := Or.inl (by omega)
    have ht : (Char.ofNat (c.toNat + 32)).toNat = c.toNat + 32 := toNat_charOfNat _ hv
    simp only [Char.toLower, if_pos h]
    rw [if_neg]
    omega
  · simp only [Char.toLower, if_neg h]

theorem toLowerCase_idem (s : String) : toLowerCase (toLowerCase s) = toLowerCase s := by
  simp only [toLowerCase, List.map_map]
  congr 1
  apply List.map_congr_left
  intro c _
  exact charToLower_idem c

theorem toLowerCase_eq_empty_iff (s : String) : toLowerCase s = "" ↔ s = "" := by
  constructor
  · intro h
    have hd : (toLowerCase s).data = ("" : String).data := by rw [h]
    simp only [toLowerCase] at hd
    have : s.data = [] := List.map_eq_nil_iff.mp hd
    cases s
    simp at this
    simp [this]
  · intro h
    subst h
    rfl

theorem DEFAULT_REGION_ne_empty (env : Option String) : DEFAULT_REGION env ≠ "" := by
  cases env with
  | none => simp [DEFAULT_REGION]
  | some s =>
    simp only [DEFAULT_REGION]
    split
    · simp
    · next h => simpa using h

theorem mapHas_of_firstKey (m : RegionMap) (k : String) (h : firstKey m = some k) :
    mapHas m k = true := by
  cases m with
  | nil => simp [firstKey] at h
  | cons p t =>
    have hk : p.1 = k := by simpa [firstKey] using h
    simp only [mapHas, List.any_cons]
    rw [hk]
    simp

theorem getCountryCode_ne_empty (req : Request) (m : RegionMap) (env : Option String)
    (c : String) (h : getCountryCode req m env = some c) : c ≠ "" := by
  simp only [getCountryCode] at h
  split_ifs at h with h1 h2 h3 h4 h5
  · rcases hu : ((jsSplit req.pathname).get? 1).map toLowerCase with _ | s <;> rw [hu] at h h1
    · exact absurd h1 (by simp [condCheck])
    · simp only [condCheck, Bool.and_eq_true, Bool.not_eq_true'] at h1
      cases h
      simpa using h1.1
  · rcases hu : req.cfCountry.map toLowerCase with _ | s <;> rw [hu] at h h2
    · exact absurd h2 (by simp [condCheck])
    · simp only [condCheck, Bool.and_eq_true, Bool.not_eq_true'] at h2
      cases h
      simpa using h2.1
  · rcases hu : req.vercelCountry.map toLowerCase with _ | s <;> rw [hu] at h h3
    · exact absurd h3 (by simp [condCheck])
    · simp only [condCheck, Bool.and_eq_true, Bool.not_eq_true'] at h3
      cases h
      simpa using h3.1
  · cases h
    exact DEFAULT_REGION_ne_empty env
  · rcases hf : firstKey m with _ | k <;> rw [hf] at h h5
    · simp [jsStrTruthy] at h5
    · simp only [jsStrTruthy, Bool.not_eq_true'] at h5
      cases h
      simpa using h5

theorem splitChar_ne_nil (sep : Char) (l : List Char) : splitChar sep l ≠ [] := by
  induction l with
  | nil => simp [splitChar]
  | cons c cs ih =>
    simp only [splitChar]
    split
    · simp
    · cases h : splitChar sep cs with
      | nil => exact absurd h ih
      | cons t ts => simp

theorem splitChar_no_sep (sep : Char) (l : List Char) (h : sep ∉ l) :
    splitChar sep l = [l] := by
  induction l with
  | nil => rfl
  | cons c cs ih =>
    have hc : ¬ c = sep := fun e => h (e ▸ List.mem_cons_self c cs)
    have hcs : sep ∉ cs := fun hm => h (List.mem_cons_of_mem _ hm)
    simp only [splitChar, if_neg hc, ih hcs]

theorem splitChar_append_sep (sep : Char) (l1 l2 : List Char) (h : sep ∉ l1) :
    splitChar sep (l1 ++ sep :: l2) = l1 :: splitChar sep l2 := by
  induction l1 with
  | nil => simp [splitChar]
  | cons c cs ih =>
    have hc : ¬ c = sep := fun e => h (e ▸ List.mem_cons_self c cs)
    have hcs : sep ∉ cs := fun hm => h (List.mem_cons_of_mem _ hm)
    simp only [List.cons_append, splitChar, if_neg hc, List.append_eq, ih hcs]

theorem splitChar_cons_self (sep : Char) (l : List Char) :
    splitChar sep (sep :: l) = [] :: splitChar sep l := by
  simp [splitChar]

theorem not_mem_of_jsIncludes_false (s : String) (c : Char) (h : jsIncludes s c = false) :
    c ∉ s.data := by
  simpa [jsIncludes] using h

/-- The second segment of a region-prefixed path: prefixing a root path or a
slash-leading path with `"/" ++ c` puts `c` into path segment 1, provided the
code `c` itself contains no slash. -/
theorem jsSplit_prefixed (c p : String) (hc : '/' ∉ c.data)
    (hp : p = "" ∨ ∃ rest, p.data = '/' :: rest) :
    (jsSplit ("/" ++ c ++ p)).get? 1 = some c := by
  unfold jsSplit
  rcases hp with hp | ⟨rest, hp⟩
  · subst hp
    have hdata : ("/" ++ c ++ "").data = '/' :: c.data := by
      simp [String.data_append]
    rw [hdata, splitChar_cons_self, splitChar_no_sep '/' c.data hc]
    simp
  · have hdata : ("/" ++ c ++ p).data = '/' :: (c.data ++ '/' :: rest) := by
      simp [String.data_append, hp]
    rw [hdata, splitChar_cons_self, splitChar_append_sep '/' c.data rest hc]
    simp

theorem keys_mapSet (m : RegionMap) (k : String) (v : StoreRegion) :
    (mapSet m k v).map Prod.fst =
      if m.any (fun p => p.1 == k) then m.map Prod.fst else m.map Prod.fst ++ [k] := by
  unfold mapSet
  split
  · rw [List.map_map]
    congr 1
    funext p
    by_cases hp : p.1 = k
    · simp [hp]
    · simp [hp]
  · simp

theorem mapHas_eq_keys (m : RegionMap) (k : String) :
    mapHas m k = (m.map Prod.fst).any (fun s => s == k) := by
  induction m with
  | nil => rfl
  | cons p t ih =>
    simp only [mapHas, List.any_cons, List.map_cons] at ih ⊢
    rw [ih]

theorem mapHas_mapSet (m : RegionMap) (k : String) (v : StoreRegion) (k2 : String) :
    mapHas (mapSet m k v) k2 = (mapHas m k2 || k == k2) := by
  rw [mapHas_eq_keys, keys_mapSet, mapHas_eq_keys]
  split
  · next h =>
    by_cases hk : k = k2
    · subst hk
      have : mapHas m k = true := by
        simpa [mapHas_eq_keys, mapHas] using h
      rw [mapHas_eq_keys] at this
      simp [this]
    · simp [hk]
  · simp

theorem toLowerCase_of_map_eq {o : Option String} {c : String}
    (h : o.map toLowerCase = some c) : toLowerCase c = c := by
  cases o with
  | none => simp at h
  | some s =>
    have hs : toLowerCase s = c := by simpa using h
    rw [← hs, toLowerCase_idem]

/-- Stability of the resolution under re-prefixing: if a request resolves to
code `c`, then any request with the same geolocation hints whose first path
segment lowercases to `toLowerCase c` resolves to a code with the same
lowercasing.  This is the engine behind the redirect fixed point. -/
theorem getCountryCode_stable (req req2 : Request) (m : RegionMap) (env : Option String)
    (c : String)
    (hc : getCountryCode req m env = some c)
    (hcf : req2.cfCountry = req.cfCountry)
    (hv : req2.vercelCountry = req.vercelCountry)
    (hurl : ((jsSplit req2.pathname).get? 1).map toLowerCase = some (toLowerCase c)) :
    ∃ c2, getCountryCode req2 m env = some c2 ∧ toLowerCase c2 = toLowerCase c := by
  simp only [getCountryCode] at hc
  split_ifs at hc with h1 h2 h3 h4 h5
  · -- resolved from the first path segment
    have hlow : toLowerCase c = c := toLowerCase_of_map_eq hc
    rw [hc] at h1
    refine ⟨toLowerCase c, ?_, toLowerCase_idem c⟩
    simp only [getCountryCode, hurl]
    rw [if_pos (by rwa [hlow])]
  · -- resolved from the Cloudflare hint
    have hlow : toLowerCase c = c := toLowerCase_of_map_eq hc
    rw [hc] at h2
    refine ⟨toLowerCase c, ?_, toLowerCase_idem c⟩
    simp only [getCountryCode, hurl]
    rw [if_pos (by rwa [hlow])]
  · -- resolved from the Vercel hint
    have hlow : toLowerCase c = c := toLowerCase_of_map_eq hc
    rw [hc] at h3
    refine ⟨toLowerCase c, ?_, toLowerCase_idem c⟩
    simp only [getCountryCode, hurl]
    rw [if_pos (by rwa [hlow])]
  · -- resolved from the configured default region
    cases hc
    by_cases hck : condCheck m (some (toLowerCase (DEFAULT_REGION env))) = true
    · refine ⟨toLowerCase (DEFAULT_REGION env), ?_, toLowerCase_idem _⟩
      simp only [getCountryCode, hurl]
      rw [if_pos hck]
    · refine ⟨DEFAULT_REGION env, ?_, rfl⟩
      simp only [getCountryCode, hurl, hcf, hv]
      rw [if_neg hck, if_neg h2, if_neg h3, if_pos h4]
  · -- resolved from the first directory entry
    by_cases hck : condCheck m (some (toLowerCase c)) = true
    · refine ⟨toLowerCase c, ?_, toLowerCase_idem c⟩
      simp only [getCountryCode, hurl]
      rw [if_pos hck]
    · refine ⟨c, ?_, rfl⟩
      simp only [getCountryCode, hurl, hcf, hv]
      rw [if_neg hck, if_neg h2, if_neg h3, if_neg h4, if_pos h5]
      exact hc

theorem mapHas_foldl_mapSet (ps : List (String × StoreRegion)) (m0 : RegionMap) (k : String) :
    mapHas (ps.foldl (fun m p => mapSet m p.1 p.2) m0) k
      = (mapHas m0 k || ps.any (fun p => p.1 == k)) := by
  induction ps generalizing m0 with
  | nil => simp
  | cons p t ih =>
    simp only [List.foldl_cons, ih, mapHas_mapSet, List.any_cons, Bool.or_assoc]

theorem string_length_ne_zero {s : String} (h : s ≠ "") : s.length ≠ 0 := by
  intro h0
  apply h
  cases s with
  | mk d =>
    simp [String.length] at h0
    simp [h0]

theorem fallback_eq (env : Option String) :
    (if DEFAULT_REGION env == "" then "dk" else DEFAULT_REGION env) = DEFAULT_REGION env := by
  rw [if_neg]
  simp [DEFAULT_REGION_ne_empty env]

theorem isEmpty_eq_false_of_ne {m : RegionMap} (hm : m ≠ []) : m.isEmpty = false := by
  cases m with
  | nil => exact absurd rfl hm
  | cons p t => rfl

theorem getCountryCode_nil (req : Request) (env : Option String) :
    getCountryCode req [] env = none := by
  have h1 : ∀ o, condCheck ([] : RegionMap) o = false := by
    intro o
    cases o <;> simp [condCheck, mapHas]
  simp [getCountryCode, h1, mapHas, firstKey, jsStrTruthy]

theorem bind_guard_eq (m : RegionMap) (o : Option String) :
    (o.bind (fun s => if s ≠ "" ∧ mapHas m s = true then some s else none))
      = if condCheck m o then o else none := by
  cases o with
  | none => simp [condCheck]
  | some s =>
    simp only [Option.some_bind]
    by_cases hs : s ≠ "" ∧ mapHas m s = true
    · rw [if_pos hs, if_pos (by simp [condCheck, hs.1, hs.2])]
    · rw [if_neg hs, if_neg]
      intro hck
      apply hs
      simp only [condCheck, Bool.and_eq_true, Bool.not_eq_true'] at hck
      exact ⟨by simpa using hck.1, hck.2⟩

theorem bind_guard_firstKey (m : RegionMap) :
    ((firstKey m).bind (fun k => if k ≠ "" then some k else none))
      = if jsStrTruthy (firstKey m) then firstKey m else none := by
  cases hf : firstKey m with
  | none => simp [jsStrTruthy]
  | some k =>
    simp only [Option.some_bind]
    by_cases hk : k = ""
    · subst hk
      simp [jsStrTruthy]
    · rw [if_pos hk, if_pos (by simp [jsStrTruthy, hk])]

theorem head?_filterMap_cons (x : Option String) (xs : List (Option String)) :
    (List.filterMap id (x :: xs)).head? = x.orElse (fun _ => (List.filterMap id xs).head?) := by
  cases x <;> simp [List.filterMap_cons, Option.orElse]

/-!
## Concrete fixtures used by counterexamples and witnesses
-/

/-- A region whose only country is `us`. -/
def rUS : StoreRegion := ⟨"reg_us", some [⟨some "us"⟩]⟩

/-- A region whose only country is `dk`. -/
def rDK : StoreRegion := ⟨"reg_dk", some [⟨some "dk"⟩]⟩

/-- A region whose country entry has no `iso_2` (the `?? ""` quirk). -/
def rNoCode : StoreRegion := ⟨"reg_nocode", some [⟨none⟩]⟩

/-!
## Claims
-/

/-- C2, counterexample: with a non-empty directory whose (only) first entry
has the empty-string key left by `iso_2 ?? ""`, and no other rule matching,
the claimed precedence picks the first entry, but `getCountryCode` returns
`undefined`: the source guards rule (5) by JS truthiness of the first key. -/
theorem claim2_counterexample :
    getCountryCode ⟨"/", "", "http://s", none, none, none⟩ [("", rNoCode)] none = none
    ∧ ([("", rNoCode)] : RegionMap) ≠ []
    ∧ firstKey [("", rNoCode)] = some "" := by
  refine ⟨rfl, by simp, rfl⟩

/-- C2, amended: the resolved country code is the first match of: (1) the
lowercased first path segment when non-empty and a directory key, (2) the
lowercased Cloudflare hint likewise, (3) the lowercased Vercel hint likewise,
(4) the configured default region when a directory key, (5) the key of the
first directory entry when it is a non-empty string, (6) `undefined`
otherwise. -/
theorem claim2_precedence (req : Request) (m : RegionMap) (env : Option String) :
    getCountryCode req m env = specCountryCode req m env := by
  simp only [getCountryCode, specCountryCode, specCandidates, bind_guard_eq,
    bind_guard_firstKey, head?_filterMap_cons]
  by_cases h1 : condCheck m (((jsSplit req.pathname).get? 1).map toLowerCase) = true
  · rw [if_pos h1, if_pos h1]
    rcases hu : ((jsSplit req.pathname).get? 1).map toLowerCase with _ | s
    · rw [hu] at h1
      simp [condCheck] at h1
    · simp [Option.orElse]
  · rw [if_neg h1, if_neg h1]
    simp only [Option.orElse]
    by_cases h2 : condCheck m (req.cfCountry.map toLowerCase) = true
    · rw [if_pos h2, if_pos h2]
      rcases hu : req.cfCountry.map toLowerCase with _ | s
      · rw [hu] at h2
        simp [condCheck] at h2
      · simp [Option.orElse]
    · rw [if_neg h2, if_neg h2]
      simp only [Option.orElse]
      by_cases h3 : condCheck m (req.vercelCountry.map toLowerCase) = true
      · rw [if_pos h3, if_pos h3]
        rcases hu : req.vercelCountry.map toLowerCase with _ | s
        · rw [hu] at h3
          simp [condCheck] at h3
        · simp [Option.orElse]
      · rw [if_neg h3, if_neg h3]
        simp only [Option.orElse]
        by_cases h4 : mapHas m (DEFAULT_REGION env) = true
        · rw [if_pos h4, if_pos h4]
        · rw [if_neg h4, if_neg h4]
          simp only [Option.orElse]
          by_cases h5 : jsStrTruthy (firstKey m) = true
          · rw [if_pos h5]
            rcases hf : firstKey m with _ | k
            · rw [hf] at h5
              simp [jsStrTruthy] at h5
            · simp [Option.orElse]
          · rw [if_neg h5]
            simp [Option.orElse]

/-- C3: with an empty directory snapshot, the middleware passes through
exactly when the first non-empty path segment is the fallback region code
(case-insensitively), and otherwise 307-redirects to the fallback-prefixed
equivalent of the path, preserving the query string. -/
theorem claim3_empty_directory (req : Request) (env : Option String) (fid : String) :
    middleware req [] env fid =
      if (((jsSplit req.pathname).filter (fun s => !(s == ""))).get? 0).map toLowerCase
          == some (toLowerCase (DEFAULT_REGION env)) then
        nextResponse
      else
        redirectResponse
          (req.origin ++ "/" ++ DEFAULT_REGION env ++
            (if req.pathname == "/" then "" else req.pathname) ++ req.search) 307 := by
  simp only [middleware, fallback_eq, List.isEmpty_nil, if_true]

/-- C5: `getRegionMap` errors exactly when the backend URL configuration is
missing or a refresh is due and the fetch came back non-success; a successful
refresh with zero regions is no error and yields the empty mapping. -/
theorem claim5_error_conditions (url : Option String) (st : CacheState) (now : Nat)
    (fetched : FetchResponse) :
    isError (getRegionMap url st now fetched)
        = (!(jsStrTruthy url) || (refreshNeeded st now && !fetched.ok))
    ∧ ((jsStrTruthy url && refreshNeeded st now && fetched.ok) = true →
        (fetched.regions.getD []).isEmpty = true →
        getRegionMap url st now fetched = Except.ok (([] : RegionMap), st)) := by
  constructor
  · simp only [getRegionMap]
    split_ifs with hurl href hok hempty <;> simp_all [isError]
  · intro hcond hempty
    simp only [Bool.and_eq_true] at hcond
    obtain ⟨⟨hu, hr⟩, ho⟩ := hcond
    simp [getRegionMap, hu, hr, ho, hempty]

/-- C5, witness: a configured backend, a due refresh and a successful fetch
with zero regions produce no error and the empty mapping. -/
theorem claim5_witness :
    isError (getRegionMap (some "http://b") ⟨[], 0⟩ 0 ⟨true, 200, some []⟩) = false
    ∧ getRegionMap (some "http://b") ⟨[], 0⟩ 0 ⟨true, 200, some []⟩
        = Except.ok (([] : RegionMap), ⟨[], 0⟩) := by
  refine ⟨?_, ?_⟩
  · rw [(claim5_error_conditions (some "http://b") ⟨[], 0⟩ 0 ⟨true, 200, some []⟩).1]
    decide
  · exact (claim5_error_conditions (some "http://b") ⟨[], 0⟩ 0 ⟨true, 200, some []⟩).2
      (by decide) (by decide)

/-- C6, counterexample: a refresh that fetches only the `dk` region into a
cache already holding `us` leaves the `us` entry in the refreshed mapping,
although `us` is not among the freshly fetched country codes — the snapshot
is not replaced wholesale. -/
theorem claim6_counterexample :
    getRegionMap (some "http://b") ⟨[("us", rUS)], 0⟩ 4000000 ⟨true, 200, some [rDK]⟩
      = Except.ok ([("us", rUS), ("dk", rDK)], ⟨[("us", rUS), ("dk", rDK)], 4000000⟩)
    ∧ (regionPairs [rDK]).any (fun p => p.1 == "us") = false
    ∧ mapHas [("us", rUS), ("dk", rDK)] "us" = true := by
  exact ⟨rfl, rfl, rfl⟩

/-- C6, amended: a successful refresh with a non-empty region list inserts
the fresh `(iso_2 ?? "", region)` pairs in order into the existing mapping
(overwriting entries with the same key), so the refreshed snapshot's keys are
exactly the old keys together with the fresh country codes; entries of the
earlier snapshot whose keys are not refetched remain. -/
theorem claim6_refresh_union (url : Option String) (st : CacheState) (now : Nat)
    (fetched : FetchResponse) (k : String)
    (hu : jsStrTruthy url = true)
    (hr : refreshNeeded st now = true)
    (ho : fetched.ok = true)
    (hne : (fetched.regions.getD []).isEmpty = false) :
    getRegionMap url st now fetched
        = Except.ok (refreshedRegionMap st (fetched.regions.getD []),
            ⟨refreshedRegionMap st (fetched.regions.getD []), now⟩)
    ∧ mapHas (refreshedRegionMap st (fetched.regions.getD [])) k
        = (mapHas st.regionMap k
            || (regionPairs (fetched.regions.getD [])).any (fun p => p.1 == k)) := by
  constructor
  · simp [getRegionMap, hu, hr, ho, hne, refreshedRegionMap]
  · unfold refreshedRegionMap
    exact mapHas_foldl_mapSet _ _ _

/-- C6, amended, witness: at the concrete refresh of the counterexample the
refreshed mapping still answers `has("us")` with `true`. -/
theorem claim6_refresh_union_witness :
    jsStrTruthy (some "http://b") = true
    ∧ refreshNeeded ⟨[("us", rUS)], 0⟩ 4000000 = true
    ∧ (⟨true, 200, some [rDK]⟩ : FetchResponse).ok = true
    ∧ (((⟨true, 200, some [rDK]⟩ : FetchResponse).regions.getD []).isEmpty) = false
    ∧ mapHas (refreshedRegionMap ⟨[("us", rUS)], 0⟩
        ((⟨true, 200, some [rDK]⟩ : FetchResponse).regions.getD [])) "us" = true := by
  refine ⟨by decide, by decide, by decide, by decide, ?_⟩
  rw [(claim6_refresh_union (some "http://b") ⟨[("us", rUS)], 0⟩ 4000000
    ⟨true, 200, some [rDK]⟩ "us" (by decide) (by decide) (by decide) (by decide)).2]
  decide

theorem getCountryCode_cookieIrrel (req : Request) (o : Option String) (m : RegionMap)
    (env : Option String) :
    getCountryCode { req with cookieCacheId := o } m env = getCountryCode req m env := rfl

/-- C4, counterexample: with the empty directory, the static-asset path
`/logo.png` is 307-redirected to its fallback-prefixed equivalent — the
empty-directory branch runs before the static-asset check. -/
theorem claim4_counterexample :
    jsIncludes "/logo.png" '.' = true
    ∧ middleware ⟨"/logo.png", "", "http://s", none, none, none⟩ [] none "fid"
        = redirectResponse "http://s/dk/logo.png" 307 := by
  exact ⟨rfl, rfl⟩

/-- C4, amended: for every non-empty directory snapshot, a request whose path
contains a `.` yields pass-through, for every combination of geolocation
hints and cookies. -/
theorem claim4_static_passthrough (req : Request) (m : RegionMap) (env : Option String)
    (fid : String) (hm : m ≠ ([] : RegionMap)) (hdot : jsIncludes req.pathname '.' = true) :
    (middleware req m env fid).kind = ResponseKind.next := by
  rcases hcc : getCountryCode req m env with _ | c <;>
    simp only [middleware, hcc, isEmpty_eq_false_of_ne hm, hdot, Bool.false_and,
      Bool.false_eq_true, if_false, Bool.not_false, Bool.true_and, if_true] <;>
    (try split_ifs) <;> rfl

/-- C4, amended, witness: a dotted path with a non-empty directory and a
resolvable code passes through. -/
theorem claim4_witness :
    ([("us", rUS)] : RegionMap) ≠ []
    ∧ jsIncludes "/logo.png" '.' = true
    ∧ (middleware ⟨"/logo.png", "", "http://s", none, none, some "US"⟩
        [("us", rUS)] none "fid").kind = ResponseKind.next := by
  exact ⟨by simp, rfl,
    claim4_static_passthrough ⟨"/logo.png", "", "http://s", none, none, some "US"⟩
      [("us", rUS)] none "fid" (by simp) rfl⟩

/-- Every middleware response either sets no cookie or is a pass-through:
each branch of the source returns a plain `NextResponse.next()`, a
`NextResponse.next()` that sets the cookie, or a cookieless redirect. -/
theorem middleware_cases (req : Request) (m : RegionMap) (env : Option String)
    (fid : String) :
    (middleware req m env fid).setCookie = none
    ∨ (middleware req m env fid).kind = ResponseKind.next := by
  rcases hcc : getCountryCode req m env with _ | c <;>
    simp only [middleware, hcc] <;>
    split_ifs <;>
    simp [nextResponse, redirectResponse, withCacheIdCookie]

/-- C9: the `_medusa_cache_id` cookie is never set on a redirect response:
whenever the decision kind is a redirect, the response carries no
`Set-Cookie`. -/
theorem claim9_no_cookie_on_redirect (req : Request) (m : RegionMap) (env : Option String)
    (fid : String) (u : String) (s : Nat)
    (h : (middleware req m env fid).kind = ResponseKind.redirect u s) :
    (middleware req m env fid).setCookie = none := by
  rcases middleware_cases req m env fid with h1 | h2
  · exact h1
  · rw [h] at h2
    cases h2

/-- C9, witness: a concrete redirect decision carries no cookie. -/
theorem claim9_witness :
    (middleware ⟨"/about", "", "http://s", none, none, none⟩ [] none "fid").setCookie
      = none :=
  claim9_no_cookie_on_redirect ⟨"/about", "", "http://s", none, none, none⟩ [] none "fid"
    "http://s/dk/about" 307 rfl

/-- C10: with the directory snapshot fixed, the decision does not depend on
the value of a present `_medusa_cache_id` cookie: two requests differing only
in that value produce identical responses. -/
theorem claim10_cookie_value_independence (req : Request) (m : RegionMap)
    (env : Option String) (fid v1 v2 : String) :
    middleware { req with cookieCacheId := some v1 } m env fid
      = middleware { req with cookieCacheId := some v2 } m env fid := by
  simp only [middleware, getCountryCode_cookieIrrel, Option.isSome_some, Bool.not_true,
    Bool.and_false, Bool.and_true, Bool.false_eq_true, if_false]

/-- Any URL the middleware redirects to is strictly longer than the
request's own URL: a slash and a non-empty code are inserted in front of the
(possibly root-shortened) path. -/
theorem redirect_len_absurd (o x rp q p : String) (hx : x.length ≠ 0)
    (hp : p.length ≤ rp.length + 1)
    (h : o ++ "/" ++ x ++ rp ++ q = o ++ p ++ q) : False := by
  have hlen := congrArg String.length h
  simp only [String.length_append] at hlen
  have h1 : ("/" : String).length = 1 := rfl
  rw [h1] at hlen
  omega

/-- C8: the middleware never returns its initial `response` — a 307 redirect
of the request to its own URL: every redirect it issues targets a strictly
longer URL (a non-empty country code is inserted), and in the decision
context that would fall through to the trailing `return response`, one of the
two cookie branches has already returned. -/
theorem claim8_no_self_redirect (req : Request) (m : RegionMap) (env : Option String)
    (fid : String) :
    (middleware req m env fid).kind
      ≠ ResponseKind.redirect (req.origin ++ req.pathname ++ req.search) 307 := by
  have hfb : (DEFAULT_REGION env).length ≠ 0 :=
    string_length_ne_zero (DEFAULT_REGION_ne_empty env)
  intro hcon
  cases hroot : (req.pathname == "/") with
  | true =>
    have hpe : req.pathname = "/" := by simpa using hroot
    have hple : req.pathname.length ≤ ("" : String).length + 1 := by
      rw [hpe]
      decide
    rcases hcc : getCountryCode req m env with _ | c
    · simp only [middleware, hcc, fallback_eq, hroot, Bool.false_and, Bool.false_eq_true,
        if_false, Bool.not_false, Bool.true_and, if_true] at hcon
      split_ifs at hcon <;>
        first
        | exact ResponseKind.noConfusion hcon
        | exact redirect_len_absurd _ _ _ _ _ hfb hple (ResponseKind.redirect.inj hcon).1
    · have hc : c.length ≠ 0 :=
        string_length_ne_zero (getCountryCode_ne_empty req m env c hcc)
      simp only [middleware, hcc, fallback_eq, hroot, if_true] at hcon
      split_ifs at hcon <;>
        first
        | exact ResponseKind.noConfusion hcon
        | exact redirect_len_absurd _ _ _ _ _ hfb hple (ResponseKind.redirect.inj hcon).1
        | exact redirect_len_absurd _ _ _ _ _ hc hple (ResponseKind.redirect.inj hcon).1
        | (rcases hs : req.cookieCacheId.isSome <;> simp_all)
  | false =>
    have hple : req.pathname.length ≤ req.pathname.length + 1 := by omega
    rcases hcc : getCountryCode req m env with _ | c
    · simp only [middleware, hcc, fallback_eq, hroot, Bool.false_and, Bool.false_eq_true,
        if_false, Bool.not_false, Bool.true_and, if_true] at hcon
      split_ifs at hcon <;>
        first
        | exact ResponseKind.noConfusion hcon
        | exact redirect_len_absurd _ _ _ _ _ hfb hple (ResponseKind.redirect.inj hcon).1
    · have hc : c.length ≠ 0 :=
        string_length_ne_zero (getCountryCode_ne_empty req m env c hcc)
      simp only [middleware, hcc, fallback_eq, hroot, Bool.false_eq_true, if_false] at hcon
      split_ifs at hcon <;>
        first
        | exact ResponseKind.noConfusion hcon
        | exact redirect_len_absurd _ _ _ _ _ hfb hple (ResponseKind.redirect.inj hcon).1
        | exact redirect_len_absurd _ _ _ _ _ hc hple (ResponseKind.redirect.inj hcon).1
        | (rcases hs : req.cookieCacheId.isSome <;> simp_all)

/-- C7: every redirect issued for the root path `/` targets
`{origin}/{code}{query}` — the trailing empty path segment is dropped — and
in particular never the trailing-slash variant `{origin}/{code}/{query}`. -/
theorem claim7_root_redirect (req : Request) (m : RegionMap) (env : Option String)
    (fid : String) (u : String) (s : Nat)
    (hroot : req.pathname = "/")
    (hred : (middleware req m env fid).kind = ResponseKind.redirect u s) :
    u = req.origin ++ "/" ++ resolvedOrFallback req m env ++ req.search
    ∧ u ≠ req.origin ++ "/" ++ resolvedOrFallback req m env ++ "/" ++ req.search := by
  have hu : u = req.origin ++ "/" ++ resolvedOrFallback req m env ++ req.search := by
    have hsplit1 : ((jsSplit "/").get? 1).map toLowerCase = some "" := rfl
    have hseg0 : ((jsSplit "/").filter (fun s => !(s == ""))).get? 0 = (none : Option String) :=
      rfl
    have hb1 : ∀ x : String, (((none : Option String)) == some x) = false := fun x => rfl
    have hdot : jsIncludes "/" '.' = false := rfl
    have hrp : (("/" : String) == "/") = true := rfl
    cases m with
    | nil =>
      simp only [middleware, hroot, getCountryCode_nil, fallback_eq, List.isEmpty_nil,
        if_true, hseg0, hb1, Bool.false_eq_true, if_false, hrp, redirectResponse] at hred
      obtain ⟨h1, -⟩ := ResponseKind.redirect.inj hred
      rw [← h1]
      simp [resolvedOrFallback, getCountryCode_nil]
    | cons p t =>
      rcases hcc : getCountryCode req (p :: t) env with _ | c
      · simp only [middleware, hroot, hcc, fallback_eq, List.isEmpty_cons,
          Bool.false_eq_true, if_false, Bool.false_and, Bool.not_false, Bool.true_and,
          hdot, hseg0, hb1, if_true, hrp, redirectResponse] at hred
        obtain ⟨h1, -⟩ := ResponseKind.redirect.inj hred
        rw [← h1]
        simp [resolvedOrFallback, hcc]
      · have hc0 : toLowerCase c ≠ "" := fun h =>
          (getCountryCode_ne_empty req (p :: t) env c hcc) ((toLowerCase_eq_empty_iff c).mp h)
        have hbeq : ((some ("" : String)) == some (toLowerCase c)) = false := by
          rw [beq_eq_false_iff_ne]
          intro h
          exact hc0 (Option.some.inj h).symm
        simp only [middleware, hroot, hcc, fallback_eq, List.isEmpty_cons,
          Bool.false_eq_true, if_false, hsplit1, hbeq, Bool.false_and, Bool.not_false,
          Bool.true_and, hdot, if_true, hrp, redirectResponse] at hred
        obtain ⟨h1, -⟩ := ResponseKind.redirect.inj hred
        rw [← h1]
        simp [resolvedOrFallback, hcc]
  refine ⟨hu, ?_⟩
  intro heq
  rw [hu] at heq
  have hlen := congrArg String.length heq
  simp only [String.length_append] at hlen
  have h1 : ("/" : String).length = 1 := rfl
  rw [h1] at hlen
  omega

/-- C7, witness: the root path with the empty directory redirects to
`http://s/dk`, not `http://s/dk/`. -/
theorem claim7_witness :
    "http://s/dk"
        = "http://s" ++ "/"
            ++ resolvedOrFallback ⟨"/", "", "http://s", none, none, none⟩ [] none ++ ""
    ∧ "http://s/dk"
        ≠ "http://s" ++ "/"
            ++ resolvedOrFallback ⟨"/", "", "http://s", none, none, none⟩ [] none
            ++ "/" ++ "" :=
  claim7_root_redirect ⟨"/", "", "http://s", none, none, none⟩ [] none "fid"
    "http://s/dk" 307 rfl rfl

/-- C1, counterexample: a static-asset path with a resolvable country code
from a non-empty directory and a first segment differing from it is passed
through, not redirected — the static-asset branch returns before the
redirect branch. -/
theorem claim1_counterexample :
    getCountryCode ⟨"/logo.png", "", "http://s", none, none, some "US"⟩ [("us", rUS)] none
        = some "us"
    ∧ ([("us", rUS)] : RegionMap) ≠ []
    ∧ ((jsSplit "/logo.png").get? 1).map toLowerCase ≠ some (toLowerCase "us")
    ∧ middleware ⟨"/logo.png", "", "http://s", none, none, some "US"⟩ [("us", rUS)] none "fid"
        = nextResponse := by
  refine ⟨rfl, by simp, by decide, rfl⟩

/-- C1, amended: for a request whose path contains no `.`, starts with `/`
and whose first segment does not lowercase to the code `c` resolved from a
non-empty directory (`c` itself slash-free), the middleware 307-redirects to
`{origin}/{c}{path}{query}` (the root path contributing the empty string);
and resolving the redirected path again, with the same directory, hints and
cookies, passes through — the redirect is a fixed point. -/
theorem claim1_redirect_fixed_point (req : Request) (m : RegionMap) (env : Option String)
    (fid : String) (c : String)
    (hm : m ≠ ([] : RegionMap))
    (hc : getCountryCode req m env = some c)
    (hseg : ((jsSplit req.pathname).get? 1).map toLowerCase ≠ some (toLowerCase c))
    (hdot : jsIncludes req.pathname '.' = false)
    (hslash : jsIncludes c '/' = false)
    (hstart : req.pathname.data.head? = some '/') :
    middleware req m env fid
      = redirectResponse
          (req.origin ++ "/" ++ c ++ (if req.pathname == "/" then "" else req.pathname)
            ++ req.search) 307
    ∧ (middleware
        { req with pathname := "/" ++ c ++ (if req.pathname == "/" then "" else req.pathname) }
        m env fid).kind = ResponseKind.next := by
  have hbeq : (((jsSplit req.pathname).get? 1).map toLowerCase == some (toLowerCase c))
      = false := beq_eq_false_iff_ne.mpr hseg
  constructor
  · simp only [middleware, hc, isEmpty_eq_false_of_ne hm, Bool.false_eq_true, if_false,
      hbeq, Bool.false_and, Bool.not_false, Bool.true_and, hdot, if_true]
  · set p2 := "/" ++ c ++ (if req.pathname == "/" then "" else req.pathname) with hp2
    have hmem : '/' ∉ c.data := not_mem_of_jsIncludes_false c '/' hslash
    have hsegfact : (jsSplit p2).get? 1 = some c := by
      rw [hp2]
      refine jsSplit_prefixed c _ hmem ?_
      by_cases hr : req.pathname == "/"
      · left
        rw [if_pos hr]
      · right
        rw [if_neg hr]
        rcases hd : req.pathname.data with _ | ⟨ch, rest⟩
        · rw [hd] at hstart
          simp at hstart
        · rw [hd] at hstart
          have hch : ch = '/' := by simpa using hstart
          subst hch
          exact ⟨rest, rfl⟩
    have hurl2 : ((jsSplit p2).get? 1).map toLowerCase = some (toLowerCase c) := by
      rw [hsegfact]
      rfl
    obtain ⟨c2, hc2, hlow⟩ :=
      getCountryCode_stable req { req with pathname := p2 } m env c hc rfl rfl hurl2
    have hbeq2 : (((jsSplit p2).get? 1).map toLowerCase == some (toLowerCase c2)) = true := by
      rw [hurl2, hlow]
      exact beq_self_eq_true _
    simp only [middleware, hc2, isEmpty_eq_false_of_ne hm, Bool.false_eq_true, if_false,
      hbeq2, Bool.true_and]
    cases hcookie : req.cookieCacheId with
    | none => simp [hcookie, nextResponse, withCacheIdCookie]
    | some v => simp [hcookie, nextResponse]

/-- C1, amended, witness: `/products` with directory `{us}` and Vercel hint
`US` redirects to `http://s/us/products`, and the redirected path passes
through. -/
theorem claim1_witness :
    ([("us", rUS)] : RegionMap) ≠ []
    ∧ getCountryCode ⟨"/products", "", "http://s", none, none, some "US"⟩ [("us", rUS)] none
        = some "us"
    ∧ ((jsSplit "/products").get? 1).map toLowerCase ≠ some (toLowerCase "us")
    ∧ jsIncludes "/products" '.' = false
    ∧ jsIncludes "us" '/' = false
    ∧ ("/products" : String).data.head? = some '/'
    ∧ (middleware ⟨"/products", "", "http://s", none, none, some "US"⟩ [("us", rUS)] none "fid"
          = redirectResponse
              ("http://s" ++ "/" ++ "us"
                ++ (if ("/products" : String) == "/" then "" else "/products") ++ "") 307
        ∧ (middleware
            { (⟨"/products", "", "http://s", none, none, some "US"⟩ : Request) with
                pathname :=
                  "/" ++ "us" ++ (if ("/products" : String) == "/" then "" else "/products") }
            [("us", rUS)] none "fid").kind = ResponseKind.next) := by
  refine ⟨by simp, rfl, by decide, rfl, rfl, rfl, ?_⟩
  exact claim1_redirect_fixed_point ⟨"/products", "", "http://s", none, none, some "US"⟩
    [("us", rUS)] none "fid" "us" (by simp) rfl (by decide) rfl rfl rfl

end Storefront
